import Mathlib

/-
  Verification development for the Q-DAS DFQ converter.

  Shallow embedding of the parsing core of the repository:
    - qdas_parser.py (_parse_k_field, _parse_file_content, parse_dfq_data,
      _parse_measurement_line) together with the dialect chain
      parsers/__init__.py (PARSER_CHAIN = [bosch_parser.parse, messdate_parser.parse]);
    - the historical single-file revision app.py (parse_header,
      parse_measurement_line, parse_value_part, parse_dfq_data);
    - excel_writer.py (create_excel_file's tabular projection).

  Modelling conventions:
    - Python float values are modelled exactly: a parsed numeric token is the
      decimal `PyF` (signed mantissa, fraction length, exponent) it denotes,
      interpreted as the rational `PyF.toRat`; every numeric literal handled by
      the claims is exact in both representations.
    - pandas timestamps are modelled by `TS`: a valid calendar time, the
      explicit invalid marker `TS.invalid` (pandas NaT, produced by
      to_datetime(..., errors='coerce')), or `TS.wallClockNow`, a distinguished
      opaque marker standing for the nondeterministic value pd.Timestamp.now().
    - Python dicts keyed by strings / ints are association lists with
      replace-or-append insertion.
    - The regular expressions of the source are compiled by hand into
      deterministic scanners whose backtracking behaviour was checked against
      CPython's `re` on the shapes that occur; `\d{1,2}` followed by a literal,
      and the `[\d\.\/]+[\s\/][\d:]+` run-shrinking, are implemented with the
      same ordered-alternative semantics.
    - strptime formats follow CPython/pandas _strptime: %d,%m,%H,%M,%S accept
      one or two digits with the documented ranges (two-digit alternative tried
      first), %Y exactly four digits, %y exactly two (POSIX century rule), the
      whole string must be consumed, and the resulting datetime must be a valid
      calendar date inside the pandas Timestamp range.
-/

namespace DFQ

/-! ## Basic character and string utilities (Python semantics) -/

def isWs (c : Char) : Bool :=
  c = ' ' || c = '\t' || c = '\n' || c = '\r' || c = '\x0b' || c = '\x0c'

def digitVal (c : Char) : Nat := c.toNat - '0'.toNat

def natOfDigits (cs : List Char) : Nat :=
  cs.foldl (fun a c => a * 10 + digitVal c) 0

def isDigits (cs : List Char) : Bool := ¬ cs.isEmpty && cs.all Char.isDigit

/-- Python str.strip (both ends). -/
def pyStrip (cs : List Char) : List Char :=
  ((cs.dropWhile isWs).reverse.dropWhile isWs).reverse

def pyStripStr (s : String) : String := String.mk (pyStrip s.data)

/-- Python s.split(sep, 1): split at the first occurrence of a character. -/
def splitAtFirst (sep : Char) : List Char → Option (List Char × List Char)
  | [] => none
  | c :: cs =>
    if c = sep then some ([], cs)
    else match splitAtFirst sep cs with
      | none => none
      | some (a, b) => some (c :: a, b)

/-- Python s.split(sep): split at every occurrence (keeps empty pieces). -/
def splitAllAux (sep : Char) : List Char → List Char → List (List Char)
  | [], acc => [acc.reverse]
  | c :: cs, acc =>
    if c = sep then acc.reverse :: splitAllAux sep cs []
    else splitAllAux sep cs (c :: acc)

def splitAll (sep : Char) (cs : List Char) : List (List Char) :=
  splitAllAux sep cs []

/-- Python str.splitlines (newline variants; no trailing empty line). -/
def splitlinesAux : List Char → List Char → List (List Char)
  | [], acc => if acc.isEmpty then [] else [acc.reverse]
  | '\r' :: '\n' :: rest, acc => acc.reverse :: splitlinesAux rest []
  | '\n' :: rest, acc => acc.reverse :: splitlinesAux rest []
  | '\r' :: rest, acc => acc.reverse :: splitlinesAux rest []
  | c :: rest, acc => splitlinesAux rest (c :: acc)

def splitlines (cs : List Char) : List (List Char) := splitlinesAux cs []

def splitlinesStr (s : String) : List String :=
  (splitlines s.data).map String.mk

/-- Python str.split() with maxsplit=2 (runs of whitespace; remainder keeps
its internal spacing, leading whitespace dropped, all-whitespace remainder
dropped). -/
def pySplitWsMax2 (cs : List Char) : List (List Char) :=
  let c1 := cs.dropWhile isWs
  let t1 := c1.takeWhile (fun c => ¬ isWs c)
  if t1.isEmpty then []
  else
    let r1 := (c1.dropWhile (fun c => ¬ isWs c)).dropWhile isWs
    let t2 := r1.takeWhile (fun c => ¬ isWs c)
    if t2.isEmpty then [t1]
    else
      let r2 := (r1.dropWhile (fun c => ¬ isWs c)).dropWhile isWs
      if r2.isEmpty then [t1, t2] else [t1, t2, r2]

/-! ## Calendar timestamps (model of pandas Timestamp / NaT / Timestamp.now) -/

structure Date where
  y : Nat
  m : Nat
  d : Nat
  hh : Nat
  mi : Nat
  ss : Nat
deriving DecidableEq

inductive TS where
  | valid : Date → TS
  | invalid : TS
  | wallClockNow : TS
deriving DecidableEq

def isLeap (y : Nat) : Bool := (y % 4 = 0 && ¬ (y % 100 = 0)) || y % 400 = 0

def daysInMonth (y m : Nat) : Nat :=
  if m = 2 then (if isLeap y then 29 else 28)
  else if m = 4 || m = 6 || m = 9 || m = 11 then 30
  else 31

/-- Lexicographic key of a calendar time, for comparisons. -/
def dateKey (t : Date) : Nat :=
  ((((t.y * 16 + t.m) * 32 + t.d) * 32 + t.hh) * 64 + t.mi) * 64 + t.ss

/-- pandas Timestamp range: representable second-resolution datetimes lie in
[1677-09-21 00:12:44, 2262-04-11 23:47:16]. -/
def inTsBounds (t : Date) : Bool :=
  dateKey (Date.mk 1677 9 21 0 12 44) ≤ dateKey t &&
  dateKey t ≤ dateKey (Date.mk 2262 4 11 23 47 16)

def validDate (t : Date) : Bool :=
  1 ≤ t.m && t.m ≤ 12 && 1 ≤ t.d && t.d ≤ daysInMonth t.y t.m &&
  t.hh ≤ 23 && t.mi ≤ 59 && t.ss ≤ 59

def setY (t : Date) (v : Nat) : Date := Date.mk v t.m t.d t.hh t.mi t.ss
def setM (t : Date) (v : Nat) : Date := Date.mk t.y v t.d t.hh t.mi t.ss
def setD (t : Date) (v : Nat) : Date := Date.mk t.y t.m v t.hh t.mi t.ss
def setHH (t : Date) (v : Nat) : Date := Date.mk t.y t.m t.d v t.mi t.ss
def setMI (t : Date) (v : Nat) : Date := Date.mk t.y t.m t.d t.hh v t.ss
def setSS (t : Date) (v : Nat) : Date := Date.mk t.y t.m t.d t.hh t.mi v

/-- strptime format tokens. -/
inductive FTok where
  | lit : Char → FTok
  | dD : FTok   -- %d, 1-2 digits, two-digit alternative 01..31, one-digit 1..9
  | dM : FTok   -- %m, two-digit 01..12, one-digit 1..9
  | dH : FTok   -- %H, two-digit 00..23, one-digit 0..9
  | dMi : FTok  -- %M, two-digit 00..59, one-digit 0..9
  | dS : FTok   -- %S, two-digit 00..59, one-digit 0..9
  | dY4 : FTok  -- %Y, exactly four digits
  | dY2 : FTok  -- %y, exactly two digits, POSIX century

def y2century (v : Nat) : Nat := if v ≤ 68 then 2000 + v else 1900 + v

/-- Bounds of the two-digit and one-digit alternatives of a numeric token
(lo2, hi2, lo1, hi1) and its field updater. All ordered as in CPython
_strptime's regexes: the two-digit alternatives come first. -/
def ftokSpec : FTok → Nat × Nat × Nat × Nat × (Date → Nat → Date)
  | FTok.dD => (1, 31, 1, 9, setD)
  | FTok.dM => (1, 12, 1, 9, setM)
  | FTok.dH => (0, 23, 0, 9, setHH)
  | FTok.dMi => (0, 59, 0, 9, setMI)
  | FTok.dS => (0, 59, 0, 9, setSS)
  | _ => (0, 0, 0, 0, fun t _ => t)

/-- One numeric strptime token against a continuation: the two-digit
alternatives come first (ordered alternation with backtracking), then the
one-digit alternative. -/
def stepNum (spec : Nat × Nat × Nat × Nat × (Date → Nat → Date))
    (k : List Char → Date → Option Date) (xs : List Char) (acc : Date) : Option Date :=
  let two : Option Date :=
    match xs with
    | a :: b :: rest =>
      if a.isDigit && b.isDigit then
        let v := digitVal a * 10 + digitVal b
        if spec.1 ≤ v && v ≤ spec.2.1 then k rest (spec.2.2.2.2 acc v)
        else none
      else none
    | _ => none
  match two with
  | some r => some r
  | none =>
    match xs with
    | a :: rest =>
      if a.isDigit then
        let v := digitVal a
        if spec.2.2.1 ≤ v && v ≤ spec.2.2.2.1 then k rest (spec.2.2.2.2 acc v)
        else none
      else none
    | [] => none

/-- CPython/pandas strptime core: match the format against the whole string
(ordered alternatives, two digits tried before one). -/
def strptimeGo : List FTok → List Char → Date → Option Date
  | [], xs, acc => if xs.isEmpty then some acc else none
  | FTok.lit c :: fs, xs, acc =>
    match xs with
    | x :: rest => if x = c then strptimeGo fs rest acc else none
    | [] => none
  | FTok.dY4 :: fs, xs, acc =>
    match xs with
    | a :: b :: c :: d :: rest =>
      if a.isDigit && b.isDigit && c.isDigit && d.isDigit then
        strptimeGo fs rest (setY acc (natOfDigits [a, b, c, d]))
      else none
    | _ => none
  | FTok.dY2 :: fs, xs, acc =>
    match xs with
    | a :: b :: rest =>
      if a.isDigit && b.isDigit then
        strptimeGo fs rest (setY acc (y2century (digitVal a * 10 + digitVal b)))
      else none
    | _ => none
  | FTok.dD :: fs, xs, acc => stepNum (ftokSpec FTok.dD) (strptimeGo fs) xs acc
  | FTok.dM :: fs, xs, acc => stepNum (ftokSpec FTok.dM) (strptimeGo fs) xs acc
  | FTok.dH :: fs, xs, acc => stepNum (ftokSpec FTok.dH) (strptimeGo fs) xs acc
  | FTok.dMi :: fs, xs, acc => stepNum (ftokSpec FTok.dMi) (strptimeGo fs) xs acc
  | FTok.dS :: fs, xs, acc => stepNum (ftokSpec FTok.dS) (strptimeGo fs) xs acc

def date1900 : Date := Date.mk 1900 1 1 0 0 0

/-- pd.to_datetime(s, format=fmt): parse, then validate the calendar date and
the Timestamp range; `none` models a raised error / NaT under errors='coerce'. -/
def pdToDatetime (fmt : List FTok) (cs : List Char) : Option Date :=
  match strptimeGo fmt cs date1900 with
  | none => none
  | some t => if validDate t && inTsBounds t then some t else none

/-- '%d.%m.%Y/%H:%M:%S' (bosch_parser.py and messdate_parser.py). -/
def fmtDmY4Slash : List FTok :=
  [FTok.dD, FTok.lit '.', FTok.dM, FTok.lit '.', FTok.dY4, FTok.lit '/',
   FTok.dH, FTok.lit ':', FTok.dMi, FTok.lit ':', FTok.dS]

/-- '%d.%m.%y/%H:%M:%S' (app.py format list, entry 1). -/
def fmtDmY2Slash : List FTok :=
  [FTok.dD, FTok.lit '.', FTok.dM, FTok.lit '.', FTok.dY2, FTok.lit '/',
   FTok.dH, FTok.lit ':', FTok.dMi, FTok.lit ':', FTok.dS]

/-- '%d.%m.%Y %H:%M:%S' (app.py format list, entry 2). -/
def fmtDmY4Space : List FTok :=
  [FTok.dD, FTok.lit '.', FTok.dM, FTok.lit '.', FTok.dY4, FTok.lit ' ',
   FTok.dH, FTok.lit ':', FTok.dMi, FTok.lit ':', FTok.dS]

/-- '%Y-%m-%d %H:%M:%S' (app.py format list, entry 3). -/
def fmtY4MD : List FTok :=
  [FTok.dY4, FTok.lit '-', FTok.dM, FTok.lit '-', FTok.dD, FTok.lit ' ',
   FTok.dH, FTok.lit ':', FTok.dMi, FTok.lit ':', FTok.dS]

/-- '%d/%m/%Y %H:%M:%S' (app.py format list, entry 4). -/
def fmtDSlashMY4 : List FTok :=
  [FTok.dD, FTok.lit '/', FTok.dM, FTok.lit '/', FTok.dY4, FTok.lit ' ',
   FTok.dH, FTok.lit ':', FTok.dMi, FTok.lit ':', FTok.dS]

/-- Exact value of a Python float() conversion of a numeric token: signed
decimal mantissa (integer and fraction digits concatenated), fraction length,
and decimal exponent.  Values are modelled exactly (see header); `toRat`
gives the rational they denote. -/
structure PyF where
  num : Int
  scale : Nat
  exp : Int
deriving DecidableEq

def PyF.toRat (v : PyF) : ℚ :=
  (v.num : ℚ) * (10 : ℚ) ^ v.exp / (10 : ℚ) ^ v.scale

/-- The PyF of a sign and integer-part/fraction-part digit runs. -/
def pyfOfParts (neg : Bool) (ds fs : List Char) : PyF :=
  PyF.mk (if neg then -(natOfDigits (ds ++ fs) : Int) else (natOfDigits (ds ++ fs) : Int))
    fs.length 0

/-! ## Dict models: header map and characteristics registry -/

/-- Python dict keyed by strings: association list without duplicate keys
(lookup finds the entry, insert replaces it in place or appends — exactly a
dict's key-preserving update and insertion-order iteration). -/
abbrev KMap := List (String × String)

def kmapLookup : KMap → String → Option String
  | [], _ => none
  | p :: ps, k => if p.1 = k then some p.2 else kmapLookup ps k

def kmapInsert : KMap → String → String → KMap
  | [], k, v => [(k, v)]
  | p :: ps, k, v => if p.1 = k then (k, v) :: ps else p :: kmapInsert ps k v

/-- characteristics: dict from positive index to per-characteristic field map. -/
abbrev Chars := List (Nat × KMap)

def charsLookup : Chars → Nat → Option KMap
  | [], _ => none
  | p :: ps, i => if p.1 = i then some p.2 else charsLookup ps i

def charsInsert : Chars → Nat → KMap → Chars
  | [], i, m => [(i, m)]
  | p :: ps, i, m => if p.1 = i then (i, m) :: ps else p :: charsInsert ps i m

/-- characteristics[i][code] = v, creating the entry if absent
(`if idx not in characteristics: characteristics[idx] = {}`). -/
def charsSetField (cs : Chars) (i : Nat) (code v : String) : Chars :=
  match charsLookup cs i with
  | none => charsInsert cs i [(code, v)]
  | some m => charsInsert cs i (kmapInsert m code v)

/-- characteristics.get(i, {}).get(code, dflt). -/
def charsGetField (cs : Chars) (i : Nat) (code dflt : String) : String :=
  match charsLookup cs i with
  | none => dflt
  | some m =>
    match kmapLookup m code with
    | none => dflt
    | some v => v

/-- characteristics.get(i, {}).get(code) (no default). -/
def charsGetFieldOpt (cs : Chars) (i : Nat) (code : String) : Option String :=
  match charsLookup cs i with
  | none => none
  | some m => kmapLookup m code

/-! ## Measurement records of the stable pipeline (qdas_parser + parsers/) -/

/-- One measurement dict as built by bosch_parser.py / messdate_parser.py:
keys Event-ID, Wert, Attribut, Zeitstempel, Merkmal, plus the GUID key that
_parse_file_content may add later.  `charIdx` records the 1-based
characteristic index the parser used to resolve `merkmal`
(`char_idx = i + 1` in messdate_parser.py, the constant 1 in
bosch_parser.py). -/
structure Rec where
  eventId : Nat
  charIdx : Nat
  wert : PyF
  attribut : Int
  zeit : TS
  merkmal : String
  guid : Option String
deriving DecidableEq

def Rec.stripGuid (r : Rec) : Rec :=
  Rec.mk r.eventId r.charIdx r.wert r.attribut r.zeit r.merkmal none

def Rec.setGuid (r : Rec) (v : String) : Rec :=
  Rec.mk r.eventId r.charIdx r.wert r.attribut r.zeit r.merkmal (some v)

/-! ## Scanners for the source's regular expressions -/

/-- 'e' in line.lower(). -/
def hasEe (cs : List Char) : Bool := cs.any (fun c => c = 'e' || c = 'E')

/-- Does `\d[Ee][+-]?\d` match at the head of the list? -/
def sciAt : List Char → Bool
  | d :: e :: s :: x :: _ =>
    d.isDigit && (e = 'E' || e = 'e') && (s.isDigit || ((s = '+' || s = '-') && x.isDigit))
  | [d, e, s] => d.isDigit && (e = 'E' || e = 'e') && s.isDigit
  | _ => false

/-- re.search(r'\d[Ee][+-]?\d', line). -/
def sciSearch : List Char → Bool
  | [] => false
  | c :: rest => sciAt (c :: rest) || sciSearch rest

/-- Group `[-+]?\d+\.?\d*` of messdate_parser's pattern (digits required before
the optional dot); returns the float() value of the matched token and the rest. -/
def matchMessVal (cs : List Char) : Option (PyF × List Char) :=
  let sgn : Bool × List Char :=
    match cs with
    | '-' :: rest => (true, rest)
    | '+' :: rest => (false, rest)
    | _ => (false, cs)
  let ds := sgn.2.takeWhile Char.isDigit
  let r1 := sgn.2.dropWhile Char.isDigit
  if ds.isEmpty then none
  else
    match r1 with
    | '.' :: r2 =>
      some (pyfOfParts sgn.1 ds (r2.takeWhile Char.isDigit), r2.dropWhile Char.isDigit)
    | _ => some (pyfOfParts sgn.1 ds [], r1)

/-- `\s+`. -/
def matchWs1 (cs : List Char) : Option (List Char) :=
  match cs with
  | c :: rest => if isWs c then some (rest.dropWhile isWs) else none
  | [] => none

/-- `(\d+)` (greedy digit run), with its int() value. -/
def matchDigits1 (cs : List Char) : Option (Nat × List Char) :=
  let ds := cs.takeWhile Char.isDigit
  if ds.isEmpty then none else some (natOfDigits ds, cs.dropWhile Char.isDigit)

/-- `\d{1,2}` followed by a literal (greedy: the two-digit alternative is
tried first; the following literal is never a digit, which makes the
backtracking deterministic). Captures digits and the literal. -/
def take12Lit (lit : Char) : List Char → Option (List Char × List Char)
  | a :: b :: c :: rest =>
    if a.isDigit && b.isDigit then
      (if c = lit then some ([a, b, c], rest) else none)
    else if a.isDigit && b = lit then some ([a, b], c :: rest)
    else none
  | [a, b] => if a.isDigit && b = lit then some ([a, b], []) else none
  | _ => none

/-- Trailing `\d{1,2}` with no following constraint (greedy). -/
def take12End : List Char → Option (List Char × List Char)
  | a :: b :: rest =>
    if a.isDigit then
      (if b.isDigit then some ([a, b], rest) else some ([a], b :: rest))
    else none
  | [a] => if a.isDigit then some ([a], []) else none
  | [] => none

/-- `\d{4}` (exactly four digits). -/
def take4Digits : List Char → Option (List Char × List Char)
  | a :: b :: c :: d :: rest =>
    if a.isDigit && b.isDigit && c.isDigit && d.isDigit then some ([a, b, c, d], rest)
    else none
  | _ => none

/-- Group `(\d{1,2}\.\d{1,2}\.\d{4}/\d{1,2}:\d{1,2}:\d{1,2})` of
messdate_parser's pattern; captures the raw matched text. -/
def matchMessTs (cs : List Char) : Option (List Char × List Char) :=
  match take12Lit '.' cs with
  | none => none
  | some (p1, r1) =>
    match take12Lit '.' r1 with
    | none => none
    | some (p2, r2) =>
      match take4Digits r2 with
      | none => none
      | some (p3, r3) =>
        match r3 with
        | '/' :: r4 =>
          match take12Lit ':' r4 with
          | none => none
          | some (p4, r5) =>
            match take12Lit ':' r5 with
            | none => none
            | some (p5, r6) =>
              match take12End r6 with
              | none => none
              | some (p6, r7) =>
                some (p1 ++ p2 ++ p3 ++ ['/'] ++ p4 ++ p5 ++ p6, r7)
        | _ => none

/-- One full-group match of messdate_parser's pattern
`([-+]?\d+\.?\d*)\s+(\d+)\s+(\d{1,2}\.\d{1,2}\.\d{4}/\d{1,2}:\d{1,2}:\d{1,2})`. -/
structure MGroup where
  wert : PyF
  attribut : Nat
  ts : List Char
deriving DecidableEq

def matchMessGroup (cs : List Char) : Option (MGroup × List Char) :=
  match matchMessVal cs with
  | none => none
  | some (v, r1) =>
    match matchWs1 r1 with
    | none => none
    | some r2 =>
      match matchDigits1 r2 with
      | none => none
      | some (a, r3) =>
        match matchWs1 r3 with
        | none => none
        | some r4 =>
          match matchMessTs r4 with
          | none => none
          | some (ts, r5) => some (MGroup.mk v a ts, r5)

/-- re.findall of messdate_parser's pattern: scan left to right, non-overlapping,
resuming after each match; on failure advance one character.  `fuel` bounds the
scan (every step consumes at least one character, so `length + 1` suffices). -/
def findallMess : Nat → List Char → List MGroup
  | 0, _ => []
  | _, [] => []
  | fuel + 1, c :: rest =>
    match matchMessGroup (c :: rest) with
    | some (g, r) => g :: findallMess fuel r
    | none => findallMess fuel rest

/-! ## messdate_parser.py -/

/-- Merkmal name resolution of messdate_parser.py line 30:
merkmal_info.get('K2002', merkmal_info.get('K2001', f'Merkmal_i')). -/
def messdateName (chars : Chars) (i : Nat) : String :=
  charsGetField chars i "K2002" (charsGetField chars i "K2001" ("Merkmal_" ++ toString i))

def mkMessRec (chars : Chars) (eventId i : Nat) (g : MGroup) : Rec :=
  Rec.mk eventId (i + 1) g.wert (Int.ofNat g.attribut)
    (match pdToDatetime fmtDmY4Slash g.ts with
     | some t => TS.valid t
     | none => TS.invalid)
    (messdateName chars (i + 1)) none

/-- The `for i, match_tuple in enumerate(matches)` loop (the conversions in
its body are total on the shapes the regex admits, so the except branch is
dead). -/
def buildMess (chars : Chars) (eventId : Nat) : Nat → List MGroup → List Rec
  | _, [] => []
  | i, g :: gs => mkMessRec chars eventId i g :: buildMess chars eventId (i + 1) gs

/-- parsers/messdate_parser.py parse. -/
def messdateParse (line : String) (chars : Chars) (eventId : Nat) : Option (List Rec) :=
  if hasEe line.data && sciSearch line.data then none
  else
    let ms := findallMess (line.data.length + 1) line.data
    if ms.isEmpty then none
    else some (buildMess chars eventId 0 ms)

/-! ## bosch_parser.py -/

/-- Python float() on an arbitrary token (optional sign, decimal literal with
optional fraction and optional exponent); none models ValueError. -/
def parseFloat (cs0 : List Char) : Option PyF :=
  let cs := pyStrip cs0
  let sgn : Bool × List Char :=
    match cs with
    | '-' :: rest => (true, rest)
    | '+' :: rest => (false, rest)
    | _ => (false, cs)
  let ds := sgn.2.takeWhile Char.isDigit
  let r1 := sgn.2.dropWhile Char.isDigit
  let mant : Option (PyF × List Char) :=
    match r1 with
    | '.' :: r2 =>
      let fs := r2.takeWhile Char.isDigit
      if ds.isEmpty && fs.isEmpty then none
      else some (pyfOfParts sgn.1 ds fs, r2.dropWhile Char.isDigit)
    | _ => if ds.isEmpty then none else some (pyfOfParts sgn.1 ds [], r1)
  match mant with
  | none => none
  | some (m, r3) =>
    match r3 with
    | [] => some m
    | e :: r4 =>
      if e = 'e' || e = 'E' then
        let esgn : Bool × List Char :=
          match r4 with
          | '-' :: r5 => (true, r5)
          | '+' :: r5 => (false, r5)
          | _ => (false, r4)
        let es := esgn.2.takeWhile Char.isDigit
        if es.isEmpty || ¬ (esgn.2.dropWhile Char.isDigit).isEmpty then none
        else
          let ex := natOfDigits es
          if esgn.1 then some (PyF.mk m.num m.scale (-(ex : Int)))
          else some (PyF.mk m.num m.scale (ex : Int))
      else none

/-- Python int() on a token; none models ValueError. -/
def parseInt (cs0 : List Char) : Option Int :=
  let cs := pyStrip cs0
  match cs with
  | '-' :: rest => if isDigits rest then some (-(natOfDigits rest : Int)) else none
  | '+' :: rest => if isDigits rest then some (natOfDigits rest : Int) else none
  | _ => if isDigits cs then some (natOfDigits cs : Int) else none

/-- parsers/bosch_parser.py parse: scientific-notation single-channel dialect;
always resolves its merkmal from characteristic index 1. -/
def boschParse (line : String) (chars : Chars) (eventId : Nat) : Option (List Rec) :=
  if ¬ hasEe line.data then none
  else
    match pySplitWsMax2 (pyStrip line.data) with
    | t1 :: t2 :: t3 :: _ =>
      match parseFloat t1, parseInt t2 with
      | some v, some a =>
        let tsPart := t3.takeWhile (fun c => ¬ isWs c)
        match pdToDatetime fmtDmY4Slash tsPart with
        | none => none
        | some t =>
          some [Rec.mk eventId 1 v a (TS.valid t)
            (charsGetField chars 1 "K2002" "Unbekanntes Bosch-Merkmal") none]
      | _, _ => none
    | _ => none

/-! ## qdas_parser.py -/

/-- A dialect as qdas_parser._parse_measurement_line sees it: it may return a
result, decline (None), or raise (modelled by Except.error). -/
def Dialect : Type := String → Chars → Nat → Except String (Option (List Rec))

def isErr {α : Type} : Except String α → Bool
  | Except.error _ => true
  | Except.ok _ => false

/-- _parse_measurement_line: try the chain in order; a raising parser is
caught (logged) and treated as declining; a falsy result (None or empty
list) also declines. -/
def tryChain : List Dialect → String → Chars → Nat → Option (List Rec)
  | [], _, _, _ => none
  | p :: rest, line, chars, eid =>
    match p line chars eid with
    | Except.error _ => tryChain rest line chars eid
    | Except.ok none => tryChain rest line chars eid
    | Except.ok (some r) =>
      if r.isEmpty then tryChain rest line chars eid else some r

/-- parsers/__init__.py PARSER_CHAIN = [bosch_parser.parse, messdate_parser.parse]. -/
def PARSER_CHAIN : List Dialect :=
  [fun l cs e => Except.ok (boschParse l cs e),
   fun l cs e => Except.ok (messdateParse l cs e)]

/-- qdas_parser._parse_k_field (the try/except wraps only total operations). -/
def parseKField (line : List Char) (header : KMap) (chars : Chars) : KMap × Chars :=
  match splitAtFirst ' ' line with
  | none => (header, chars)
  | some (codeFull, rawVal) =>
    let v := String.mk (pyStrip rawVal)
    let code := String.mk codeFull
    let header2 := kmapInsert header code v
    match splitAtFirst '/' codeFull with
    | none => (header2, chars)
    | some (base, idxs) =>
      if ['K', '2'].isPrefixOf base && isDigits idxs then
        (header2, charsSetField chars (natOfDigits idxs) (String.mk base) v)
      else (header2, chars)

/-- re.match(r'^K\d{4}', line[:5]) together with line.startswith('K'). -/
def kFieldMatch (s : List Char) : Bool :=
  ['K'].isPrefixOf s &&
  (match s.take 5 with
   | 'K' :: a :: b :: c :: d :: _ => a.isDigit && b.isDigit && c.isDigit && d.isDigit
   | _ => false)

inductive LineClass where
  | blank | correlation | field | candidate
deriving DecidableEq

/-- Line routing of _parse_file_content lines 52-64 (after strip): blank,
K0097/ correlation, K-field, else measurement candidate. -/
def classify (s : List Char) : LineClass :=
  if s.isEmpty then LineClass.blank
  else if "K0097/".data.isPrefixOf s then LineClass.correlation
  else if kFieldMatch s then LineClass.field
  else LineClass.candidate

/-- measurements[-1]['GUID'] = v. -/
def setLastGuid : List Rec → String → List Rec
  | [], _ => []
  | [r], v => [r.setGuid v]
  | r :: s :: rest, v => r :: setLastGuid (s :: rest) v

structure QState where
  header : KMap
  chars : Chars
  ms : List Rec
  eventId : Nat
deriving DecidableEq

def initQState : QState := QState.mk [] [] [] 1

/-- The value a correlation line carries: parts[1].strip() of split(' ', 1). -/
def corrValue (s : List Char) : Option String :=
  match splitAtFirst ' ' s with
  | none => none
  | some (_, rest) => some (String.mk (pyStrip rest))

/-- One iteration of the _parse_file_content loop (the line is stripped once
at the top of the loop body and used stripped throughout). -/
def stepLine (chain : List Dialect) (st : QState) (rawLine : String) : QState :=
  match classify (pyStrip rawLine.data) with
  | LineClass.blank => st
  | LineClass.correlation =>
    if st.ms.isEmpty then st
    else
      match corrValue (pyStrip rawLine.data) with
      | none => st
      | some v => QState.mk st.header st.chars (setLastGuid st.ms v) st.eventId
  | LineClass.field =>
    QState.mk (parseKField (pyStrip rawLine.data) st.header st.chars).1
      (parseKField (pyStrip rawLine.data) st.header st.chars).2 st.ms st.eventId
  | LineClass.candidate =>
    match tryChain chain (String.mk (pyStrip rawLine.data)) st.chars st.eventId with
    | some r => QState.mk st.header st.chars (st.ms ++ r) (st.eventId + 1)
    | none => st

/-- qdas_parser._parse_file_content. -/
def parseFileContent (chain : List Dialect) (lines : List String) : QState :=
  lines.foldl (stepLine chain) initQState

/-- Did this line produce one or more measurement records (and hence an
event-counter increment)? -/
def producedRecords (chain : List Dialect) (st : QState) (rawLine : String) : Bool :=
  let s := pyStrip rawLine.data
  classify s = LineClass.candidate &&
    (tryChain chain (String.mk s) st.chars st.eventId).isSome

structure QResult where
  header : KMap
  chars : Chars
  ms : List Rec
deriving DecidableEq

/-- qdas_parser.parse_dfq_data: None models the no-usable-data result
(empty file, or zero measurement records after parsing). -/
def parseDfqWith (chain : List Dialect) (content : String) : Option QResult :=
  let lines := splitlinesStr content
  if lines.isEmpty then none
  else
    let st := parseFileContent chain lines
    if st.ms.isEmpty then none
    else some (QResult.mk st.header st.chars st.ms)

def parseDfqData (content : String) : Option QResult :=
  parseDfqWith PARSER_CHAIN content

/-! ## The historical single-file revision: app.py -/

/-- One measurement dict of app.py parse_measurement_line: keys Zeitstempel,
Merkmal, Wert, Attribut, Zeile.  `charIdx` records the `char_index = i + 1`
used to resolve `merkmal`. -/
structure AppRec where
  zeit : TS
  merkmal : String
  wert : PyF
  attribut : Int
  zeile : Nat
  charIdx : Nat
deriving DecidableEq

/-- Group `([-+]?\d*\.?\d+)` of app.py pattern1 (digits optional before the
dot, at least one digit required after it or in the integer part); deterministic
rendering of the regex backtracking: a trailing dot with no fraction digits is
left unconsumed. -/
def matchAppVal (cs : List Char) : Option (PyF × List Char) :=
  let sgn : Bool × List Char :=
    match cs with
    | '-' :: rest => (true, rest)
    | '+' :: rest => (false, rest)
    | _ => (false, cs)
  let ds := sgn.2.takeWhile Char.isDigit
  let r1 := sgn.2.dropWhile Char.isDigit
  match r1 with
  | '.' :: r2 =>
    let fs := r2.takeWhile Char.isDigit
    if ¬ fs.isEmpty then some (pyfOfParts sgn.1 ds fs, r2.dropWhile Char.isDigit)
    else if ¬ ds.isEmpty then some (pyfOfParts sgn.1 ds [], r1)
    else none
  | _ => if ¬ ds.isEmpty then some (pyfOfParts sgn.1 ds [], r1) else none

def isTsRunChar (c : Char) : Bool := c.isDigit || c = '.' || c = '/'
def isTsSepChar (c : Char) : Bool := isWs c || c = '/'
def isTsTailChar (c : Char) : Bool := c.isDigit || c = ':'

/-- One boundary attempt of `[\d\.\/]+[\s\/][\d:]+`: `run` is the candidate
first-part capture, `after` starts at the separator candidate. -/
def appTsAttempt (run after : List Char) : Option (List Char × List Char) :=
  match after with
  | s :: tl =>
    if isTsSepChar s then
      let c3 := tl.takeWhile isTsTailChar
      if c3.isEmpty then none
      else some (run ++ [s] ++ c3, tl.dropWhile isTsTailChar)
    else none
  | [] => none

/-- Greedy-with-backtracking boundary search: try the longest `[\d\.\/]+` run
first, then shrink it one character at a time (exactly the order the regex
engine explores). `runRev` is the remaining candidate run, reversed. -/
def appTsShrink : List Char → List Char → Option (List Char × List Char)
  | [], _ => none
  | c :: rr, after =>
    match appTsAttempt (c :: rr).reverse after with
    | some x => some x
    | none => appTsShrink rr (c :: after)

/-- Group `([\d\.\/]+[\s\/][\d:]+)` of app.py pattern1. -/
def matchAppTs (cs : List Char) : Option (List Char × List Char) :=
  let run := cs.takeWhile isTsRunChar
  if run.isEmpty then none
  else appTsShrink run.reverse (cs.dropWhile isTsRunChar)

/-- One full match of app.py pattern1
`([-+]?\d*\.?\d+)\s+(\d+)\s+([\d\.\/]+[\s\/][\d:]+)`: captures
(float(match[0]), int(match[1]), match[2]). -/
def matchApp1 (cs : List Char) : Option ((PyF × Nat × List Char) × List Char) :=
  match matchAppVal cs with
  | none => none
  | some (v, r1) =>
    match matchWs1 r1 with
    | none => none
    | some r2 =>
      match matchDigits1 r2 with
      | none => none
      | some (a, r3) =>
        match matchWs1 r3 with
        | none => none
        | some r4 =>
          match matchAppTs r4 with
          | none => none
          | some (ts, r5) => some ((v, a, ts), r5)

/-- re.findall of app.py pattern1. -/
def findallApp1 : Nat → List Char → List (PyF × Nat × List Char)
  | 0, _ => []
  | _, [] => []
  | fuel + 1, c :: rest =>
    match matchApp1 (c :: rest) with
    | some (g, r) => g :: findallApp1 fuel r
    | none => findallApp1 fuel rest

/-- re.findall of app.py numeric_pattern `[-+]?\d*\.?\d+`. -/
def findallAppNum : Nat → List Char → List PyF
  | 0, _ => []
  | _, [] => []
  | fuel + 1, c :: rest =>
    match matchAppVal (c :: rest) with
    | some (v, r) => v :: findallAppNum fuel r
    | none => findallAppNum fuel rest

/-- app.py lines 296-298: replace the control/separator characters by spaces. -/
def appCleanLine (cs : List Char) : List Char :=
  cs.map (fun c => if c = '\x14' || c = '\x0f' || c = '¶' || c = '¤' then ' ' else c)

/-- date_str.replace('/', ' '). -/
def slashToSpace (cs : List Char) : List Char :=
  cs.map (fun c => if c = '/' then ' ' else c)

/-- app.py lines 310-318: try the four datetime formats on the
slash-replaced date string. -/
def appTryFormats (dateStr : List Char) : Option Date :=
  let s := slashToSpace dateStr
  match pdToDatetime fmtDmY2Slash s with
  | some t => some t
  | none =>
    match pdToDatetime fmtDmY4Space s with
    | some t => some t
    | none =>
      match pdToDatetime fmtY4MD s with
      | some t => some t
      | none => pdToDatetime fmtDSlashMY4 s

/-- app.py lines 307-322: the timestamp of the line is the first match whose
date string parses under some format; None if no match parses. -/
def appLineTimestamp : List (PyF × Nat × List Char) → Option Date
  | [] => none
  | (_, _, ts) :: rest =>
    match appTryFormats ts with
    | some t => some t
    | none => appLineTimestamp rest

/-- characteristics.get(i, {}).get('K2002', f'Merkmal_i') (app.py). -/
def appName (chars : Chars) (i : Nat) : String :=
  charsGetField chars i "K2002" ("Merkmal_" ++ toString i)

def buildApp1 (chars : Chars) (ts : TS) (lineNum : Nat) :
    Nat → List (PyF × Nat × List Char) → List AppRec
  | _, [] => []
  | i, (v, a, _) :: gs =>
    AppRec.mk ts (appName chars (i + 1)) v (Int.ofNat a) lineNum (i + 1) ::
      buildApp1 chars ts lineNum (i + 1) gs

def buildApp2 (chars : Chars) (lineNum : Nat) : Nat → List PyF → List AppRec
  | _, [] => []
  | i, v :: vs =>
    AppRec.mk TS.wallClockNow (appName chars (i + 1)) v 0 lineNum (i + 1) ::
      buildApp2 chars lineNum (i + 1) vs

/-- app.py parse_measurement_line: Format 1 (value attribute timestamp groups,
one shared timestamp resolved from the first parseable match, falling back to
pd.Timestamp.now()), else Format 2 (bare numeric tokens, attribute 0 and
pd.Timestamp.now() as the timestamp). -/
def appParseMeasurementLine (line : String) (chars : Chars) (lineNum : Nat) : List AppRec :=
  let cleaned := appCleanLine line.data
  let found := findallApp1 (cleaned.length + 1) cleaned
  if ¬ found.isEmpty then
    let ts : TS :=
      match appLineTimestamp found with
      | some t => TS.valid t
      | none => TS.wallClockNow
    buildApp1 chars ts lineNum 0 found
  else
    buildApp2 chars lineNum 0 (findallAppNum (cleaned.length + 1) cleaned)

/-- app.py parse_value_part: enumerate lines from 1, skip blank lines and
lines starting (after strip) with 'K'. -/
def appParseValuePart (chars : Chars) : Nat → List String → List AppRec
  | _, [] => []
  | n, l :: ls =>
    let s := pyStrip l.data
    if s.isEmpty then appParseValuePart chars (n + 1) ls
    else if ['K'].isPrefixOf s then appParseValuePart chars (n + 1) ls
    else appParseMeasurementLine l chars n ++ appParseValuePart chars (n + 1) ls

/-- value.split('¤') fan-out of app.py parse_header (lines 214-219 and
231-236): piece i (1-based) goes to characteristic i when nonblank. -/
def fanPieces (base : String) : Nat → List (List Char) → Chars → Chars
  | _, [], cs => cs
  | i, p :: ps, cs =>
    let v := pyStrip p
    fanPieces base (i + 1) ps
      (if v.isEmpty then cs else charsSetField cs i base (String.mk v))

def hasCurrency (cs : List Char) : Bool := cs.any (fun c => c = '¤')

/-- app.py parse_header, processing of one split (code_part, value) pair
(lines 197-238; the surrounding try/except wraps only total operations). -/
def appHeaderField (codePart value : List Char) (st : KMap × Chars) : KMap × Chars :=
  match splitAtFirst '/' codePart with
  | some (base, idxPart) =>
    if isDigits idxPart then
      let index := natOfDigits idxPart
      if ['K', '2'].isPrefixOf base && index > 0 then
        let cs1 :=
          match charsLookup st.2 index with
          | none => charsInsert st.2 index []
          | some _ => st.2
        if hasCurrency value then
          (st.1, fanPieces (String.mk base) 1 (splitAll '¤' value) cs1)
        else (st.1, charsSetField cs1 index (String.mk base) (String.mk value))
      else (kmapInsert st.1 (String.mk codePart) (String.mk value), st.2)
    else (kmapInsert st.1 (String.mk codePart) (String.mk value), st.2)
  | none =>
    if ['K', '2'].isPrefixOf codePart && hasCurrency value then
      (st.1, fanPieces (String.mk codePart) 1 (splitAll '¤' value) st.2)
    else (kmapInsert st.1 (String.mk codePart) (String.mk value), st.2)

/-- app.py parse_header, one line: split on the first space; lines with no
separable value are skipped. -/
def appHeaderLine (st : KMap × Chars) (l : String) : KMap × Chars :=
  match splitAtFirst ' ' (pyStrip l.data) with
  | none => st
  | some (codePart, rawVal) => appHeaderField codePart (pyStrip rawVal) st

def appParseHeader (lines : List String) : KMap × Chars :=
  lines.foldl appHeaderLine ([], [])

/-- re.match(r'^K[0-9]{4}', line.strip()) of app.py line 144. -/
def appIsHeaderK (s : List Char) : Bool :=
  match s with
  | 'K' :: a :: b :: c :: d :: _ => a.isDigit && b.isDigit && c.isDigit && d.isDigit
  | _ => false

/-- app.py lines 139-157: split the line list into header and value parts. -/
def appSplitParts : List String → Bool → List String → List String →
    List String × List String
  | [], _, hs, vs => (hs.reverse, vs.reverse)
  | l :: ls, finished, hs, vs =>
    let isK := appIsHeaderK (pyStrip l.data)
    let finished2 := if ¬ isK && ¬ finished && ¬ hs.isEmpty then true else finished
    if finished2 then appSplitParts ls finished2 hs (l :: vs)
    else if isK then appSplitParts ls finished2 (l :: hs) vs
    else appSplitParts ls finished2 hs vs

/-- content.replace('\r\n','\n').replace('\r','\n'). -/
def normalizeNl : List Char → List Char
  | [] => []
  | '\r' :: '\n' :: cs => '\n' :: normalizeNl cs
  | '\r' :: cs => '\n' :: normalizeNl cs
  | c :: cs => c :: normalizeNl cs

structure AppResult where
  header : KMap
  chars : Chars
  measurements : List AppRec
deriving DecidableEq

/-- app.py parse_dfq_data (validate_required_fields only logs and is omitted;
None models both the empty-file and the no-measurements outcome). -/
def appParseDfq (content : String) : Option AppResult :=
  let lines := ((splitAll '\n' (pyStrip (normalizeNl content.data))).filter
    (fun l => ¬ (pyStrip l).isEmpty)).map String.mk
  if lines.isEmpty then none
  else
    let parts := appSplitParts lines false [] []
    let hc := appParseHeader parts.1
    let ms := appParseValuePart hc.2 1 parts.2
    if ms.isEmpty then none
    else some (AppResult.mk hc.1 hc.2 ms)

/-! ## excel_writer.py: the tabular projection of create_excel_file

Modelled: the construction of df_display (lines 33-43).  The constant
Teil-Nr/Teil-Bez columns (one value for the whole file) and the final
6-decimal presentation rounding are not modelled; every value appearing in
the theorems below is exact at 6 decimals.  pandas pivot_table is called
without aggfunc, so its default aggregation 'mean' applies; groupby/pivot
drop index keys containing NaT and all-NaN columns (dropna=True). -/

def insertLe {α : Type} (le : α → α → Bool) (x : α) : List α → List α
  | [] => [x]
  | y :: ys => if le x y then x :: y :: ys else y :: insertLe le x ys

/-- Insertion sort (stable; pandas sorts the pivot index, and the final
sort_values('Messung Nr.') is modelled as stable). -/
def insSortBy {α : Type} (le : α → α → Bool) : List α → List α
  | [] => []
  | x :: xs => insertLe le x (insSortBy le xs)

def dedupAux {α : Type} [DecidableEq α] (seen : List α) : List α → List α
  | [] => []
  | x :: xs => if x ∈ seen then dedupAux seen xs else x :: dedupAux (x :: seen) xs

/-- Unique values in order of first appearance. -/
def dedupKeep {α : Type} [DecidableEq α] (l : List α) : List α := dedupAux [] l

/-- Ordering key for timestamps in the pivot index (NaT keys are dropped
before sorting; the wall-clock marker cannot reach this pipeline). -/
def tsKey : TS → Nat
  | TS.invalid => 0
  | TS.valid t => dateKey t + 1
  | TS.wallClockNow => 10 ^ 30

def rowKeyLe (a b : Nat × TS) : Bool :=
  a.1 < b.1 || (a.1 == b.1 && tsKey a.2 ≤ tsKey b.2)

def charListLe : List Char → List Char → Bool
  | [], _ => true
  | _ :: _, [] => false
  | a :: as, b :: bs =>
    if a.val < b.val then true
    else if a.val = b.val then charListLe as bs
    else false

def strLe (a b : String) : Bool := charListLe a.data b.data

/-- Records whose pivot index key survives groupby's dropna (timestamp not NaT). -/
def pivotValidMs (ms : List Rec) : List Rec :=
  ms.filter (fun r => match r.zeit with | TS.invalid => false | _ => true)

/-- The pivot index: sorted unique (Event-ID, Zeitstempel) pairs (Teil-Nr and
Teil-Bez are constant over the file and never split a group). -/
def pivotKeys (ms : List Rec) : List (Nat × TS) :=
  insSortBy rowKeyLe (dedupKeep ((pivotValidMs ms).map (fun r => (r.eventId, r.zeit))))

/-- The pivot columns: sorted unique Merkmal labels (an all-NaN column is
dropped, hence columns are taken from the surviving records). -/
def pivotCols (ms : List Rec) : List String :=
  insSortBy strLe (dedupKeep ((pivotValidMs ms).map Rec.merkmal))

/-- pivot_table's default aggregation: the mean. -/
def meanOf (vs : List ℚ) : Option ℚ :=
  if vs.isEmpty then none else some (vs.sum / (vs.length : ℚ))

/-- One pivot cell: the mean of the Wert values of the group. -/
def cellVal (ms : List Rec) (e : Nat) (t : TS) (m : String) : Option ℚ :=
  meanOf (((pivotValidMs ms).filter
    (fun r => r.eventId == e && r.zeit == t && r.merkmal == m)).map
      (fun r => PyF.toRat r.wert))

structure WideRow where
  eventId : Nat
  zeit : TS
  cells : List (String × Option ℚ)
deriving DecidableEq

def wideRows (ms : List Rec) : List WideRow :=
  (pivotKeys ms).map (fun k =>
    WideRow.mk k.1 k.2 ((pivotCols ms).map (fun m => (m, cellVal ms k.1 k.2 m))))

/-- df_measurements.groupby('Event-ID')['Merkmal'].nunique().max() > 1. -/
def multiFeature (ms : List Rec) : Bool :=
  ms.any (fun r => ms.any (fun q => q.eventId == r.eventId && ¬ (q.merkmal == r.merkmal)))

inductive Display where
  | wide : List WideRow → Display
  | long : List Rec → Display
deriving DecidableEq

/-- excel_writer.create_excel_file lines 33-43: pivot to wide form when some
event carries more than one distinct Merkmal, otherwise keep the long form;
then sort by 'Messung Nr.' (the renamed Event-ID). -/
def createExcelDisplay (ms : List Rec) : Display :=
  if multiFeature ms then Display.wide (wideRows ms)
  else Display.long (insSortBy (fun a b => decide (a.eventId ≤ b.eventId)) ms)

/-! ## Definitions taken from the specification's words (for comparison with
the code; marked spec-, never used inside the code model) -/

/-- Spec 4.1 claim C9: a line "begins with the fixed tag pattern (one letter +
exactly four digits), optionally followed by /<positive integer>". -/
def specClaimFieldPattern (s : String) : Bool :=
  match s.data with
  | c :: a :: b :: d :: e :: _ => c.isAlpha && a.isDigit && b.isDigit && d.isDigit && e.isDigit
  | _ => false

/-- Spec 4.7 claim C4: "keep the first" value of an event/characteristic pair. -/
def specFirstValue (ms : List Rec) (e : Nat) (m : String) : Option ℚ :=
  (((ms.filter (fun r => r.eventId == e && r.merkmal == m)).map
    (fun r => PyF.toRat r.wert))).head?

/-! # Theorems for the claims -/

set_option maxRecDepth 100000

/-! ## C1 -/

/-- The concrete scenario of claim C1: three characteristic field lines
followed by the bare-numeric line "50.52". -/
def c1File : String := "K2101/1 50.45\nK2110/1 50.30\nK2111/1 50.60\n50.52"

/-- C1 (code_bug evidence): on the claimed scenario the bare-numeric dialect
of app.py produces exactly one record with characteristic index 1, value
50.52 and attribute code 0 — but its timestamp is the current wall-clock time
(pd.Timestamp.now(), modelled by the opaque marker TS.wallClockNow), which is
not the explicit invalid/unknown marker the claim requires.  The stable
pipeline (qdas_parser with PARSER_CHAIN) has no bare-numeric dialect at all
and reports the same file as having no usable data. -/
theorem c1_bare_numeric_wallclock :
    (appParseDfq c1File).map AppResult.measurements
      = some [AppRec.mk TS.wallClockNow "Merkmal_1" (PyF.mk 5052 2 0) 0 1 1]
    ∧ PyF.toRat (PyF.mk 5052 2 0) = 5052 / 100
    ∧ TS.wallClockNow ≠ TS.invalid
    ∧ parseDfqData c1File = none := by
  refine ⟨by decide, ?_, by decide, by decide⟩
  norm_num [PyF.toRat]

/-! ## C5 -/

/-- C5 (code_bug evidence): app.py parse_measurement_line on its own
documented example line (comment at app.py line 301) — the timestamp token
"12.08.99/15:23:45" parses under none of the four formats (the two-digit year
defeats %Y and the slash defeats the others), and the record is silently
stamped with the current wall-clock time instead of an invalid marker, making
the parse output depend on the time of the run. -/
theorem c5_unparseable_timestamp_wallclock :
    appParseMeasurementLine "9.94 0 12.08.99/15:23:45 0" [] 1
      = [AppRec.mk TS.wallClockNow "Merkmal_1" (PyF.mk 994 2 0) 0 1 1]
    ∧ TS.wallClockNow ≠ TS.invalid := by
  exact ⟨by decide, by decide⟩

/-! ## C2 -/

theorem buildMess_length (chars : Chars) (eid : Nat) :
    ∀ (gs : List MGroup) (i : Nat), (buildMess chars eid i gs).length = gs.length := by
  intro gs
  induction gs with
  | nil => intro i; simp [buildMess]
  | cons g gs ih => intro i; simp [buildMess, ih]

theorem buildMess_charIdx (chars : Chars) (eid : Nat) :
    ∀ (gs : List MGroup) (i : Nat),
      (buildMess chars eid i gs).map Rec.charIdx = List.range' (i + 1) gs.length := by
  intro gs
  induction gs with
  | nil => intro i; simp [buildMess]
  | cons g gs ih =>
    intro i
    simp only [buildMess, List.map_cons, List.length_cons, List.range', ih (i + 1)]
    rfl

theorem buildMess_eventId (chars : Chars) (eid : Nat) :
    ∀ (gs : List MGroup) (i : Nat),
      (buildMess chars eid i gs).map Rec.eventId = List.replicate gs.length eid := by
  intro gs
  induction gs with
  | nil => intro i; simp [buildMess]
  | cons g gs ih =>
    intro i
    simp only [buildMess, List.map_cons, List.length_cons, List.replicate, ih (i + 1)]
    rfl

/-- C2: every line the multi-channel whitespace dialect recognizes produces
exactly one record per matched (value, attribute, timestamp) group, with
characteristic indices 1..k assigned in left-to-right scan order and the one
event id the caller passed shared by all k records. -/
theorem c2_multichannel_k_groups (line : String) (chars : Chars) (eid : Nat)
    (recs : List Rec) (h : messdateParse line chars eid = some recs) :
    recs.length = (findallMess (line.data.length + 1) line.data).length
    ∧ recs.map Rec.charIdx = List.range' 1 recs.length
    ∧ recs.map Rec.eventId = List.replicate recs.length eid := by
  unfold messdateParse at h
  split at h
  · exact absurd h (by simp)
  · dsimp only at h
    split at h
    · exact absurd h (by simp)
    · have hr : recs = buildMess chars eid 0 (findallMess (line.data.length + 1) line.data) :=
        (Option.some_injective _ h).symm
      subst hr
      refine ⟨buildMess_length chars eid _ 0, ?_, ?_⟩
      · rw [buildMess_length chars eid _ 0]
        exact buildMess_charIdx chars eid _ 0
      · rw [buildMess_length chars eid _ 0]
        exact buildMess_eventId chars eid _ 0

/-- The concrete two-group line of claim C2. -/
def c2line : String := "57.962 0 05.07.2006/10:48:07  26.051 0 05.07.2006/10:48:08"

/-- The two records the dialect produces for `c2line` under event id 7. -/
def c2recs : List Rec :=
  [Rec.mk 7 1 (PyF.mk 57962 3 0) 0 (TS.valid (Date.mk 2006 7 5 10 48 7)) "Merkmal_1" none,
   Rec.mk 7 2 (PyF.mk 26051 3 0) 0 (TS.valid (Date.mk 2006 7 5 10 48 8)) "Merkmal_2" none]

theorem c2_multichannel_k_groups_witness :
    messdateParse c2line [] 7 = some c2recs
    ∧ (c2recs.length = (findallMess (c2line.data.length + 1) c2line.data).length
       ∧ c2recs.map Rec.charIdx = List.range' 1 c2recs.length
       ∧ c2recs.map Rec.eventId = List.replicate c2recs.length 7)
    ∧ c2recs.map Rec.zeit
        = [TS.valid (Date.mk 2006 7 5 10 48 7), TS.valid (Date.mk 2006 7 5 10 48 8)]
    ∧ TS.valid (Date.mk 2006 7 5 10 48 7) ≠ TS.valid (Date.mk 2006 7 5 10 48 8) := by
  have h : messdateParse c2line [] 7 = some c2recs := by decide
  exact ⟨h, c2_multichannel_k_groups c2line [] 7 c2recs h, by decide, by decide⟩

/-! ## C10 -/

theorem sciAt_hasEe : ∀ cs : List Char, sciAt cs = true → hasEe cs = true := by
  intro cs h
  match cs with
  | d :: e :: s :: x :: rest =>
    simp only [sciAt, Bool.and_eq_true, Bool.or_eq_true] at h
    simp only [hasEe, List.any_cons, Bool.or_eq_true]
    tauto
  | [d, e, s] =>
    simp only [sciAt, Bool.and_eq_true, Bool.or_eq_true] at h
    simp only [hasEe, List.any_cons, Bool.or_eq_true]
    tauto
  | [] => simp [sciAt] at h
  | [d] => simp [sciAt] at h
  | [d, e] => simp [sciAt] at h

theorem sciSearch_hasEe : ∀ cs : List Char, sciSearch cs = true → hasEe cs = true := by
  intro cs h
  induction cs with
  | nil => simp [sciSearch] at h
  | cons c rest ih =>
    rw [sciSearch, Bool.or_eq_true] at h
    cases h with
    | inl h => exact sciAt_hasEe _ h
    | inr h =>
      have := ih h
      simp only [hasEe, List.any_cons, Bool.or_eq_true]
      right
      simpa [hasEe] using this

theorem boschParse_shape (line : String) (chars : Chars) (eid : Nat) (r : List Rec)
    (h : boschParse line chars eid = some r) : ∃ x : Rec, r = [x] ∧ x.charIdx = 1 := by
  unfold boschParse at h
  split at h
  · exact absurd h (by simp)
  · split at h
    · split at h
      · dsimp only at h
        split at h
        · exact absurd h (by simp)
        · refine ⟨_, (Option.some_injective _ h).symm, rfl⟩
      · exact absurd h (by simp)
    · exact absurd h (by simp)

/-- C10: a line containing a scientific-notation exponent substring (digit,
E/e, optional sign, digit) is unconditionally declined by the multi-channel
dialect, so the chain produces either no records or exactly one record, whose
characteristic index is 1 (via the scientific-notation dialect) — never two
or more. -/
theorem c10_sci_exclusive (line : String) (chars : Chars) (eid : Nat)
    (h : sciSearch line.data = true) :
    (tryChain PARSER_CHAIN line chars eid).map (fun l => l.map Rec.charIdx) = none
    ∨ (tryChain PARSER_CHAIN line chars eid).map (fun l => l.map Rec.charIdx) = some [1] := by
  have hEe : hasEe line.data = true := sciSearch_hasEe _ h
  have hmess : messdateParse line chars eid = none := by
    simp [messdateParse, hEe, h]
  cases hb : boschParse line chars eid with
  | none =>
    left
    simp [tryChain, PARSER_CHAIN, hb, hmess]
  | some r =>
    obtain ⟨x, hr, hx⟩ := boschParse_shape line chars eid r hb
    subst hr
    right
    simp [tryChain, PARSER_CHAIN, hb, hx]

theorem c10_sci_exclusive_witness :
    sciSearch (String.data "9E9") = true
    ∧ ((tryChain PARSER_CHAIN "9E9" [] 1).map (fun l => l.map Rec.charIdx) = none
       ∨ (tryChain PARSER_CHAIN "9E9" [] 1).map (fun l => l.map Rec.charIdx) = some [1]) :=
  ⟨by decide, c10_sci_exclusive "9E9" [] 1 (by decide)⟩

/-! ## C3 -/

theorem tryChain_some_ne_nil (chain : List Dialect) (line : String) (cs : Chars)
    (eid : Nat) (r : List Rec) (h : tryChain chain line cs eid = some r) : r ≠ [] := by
  induction chain with
  | nil => exact absurd h (by simp [tryChain])
  | cons p rest ih =>
    rw [tryChain] at h
    split at h
    · exact ih h
    · exact ih h
    · split at h
      · exact ih h
      · rename_i res hres hne
        cases h
        simpa using hne

theorem setLastGuid_length (v : String) :
    ∀ ms : List Rec, (setLastGuid ms v).length = ms.length := by
  intro ms
  induction ms with
  | nil => rfl
  | cons r rest ih =>
    cases rest with
    | nil => rfl
    | cons s rest2 => simpa [setLastGuid] using ih

theorem stepLine_blank (chain : List Dialect) (st : QState) (l : String)
    (hc : classify (pyStrip l.data) = LineClass.blank) : stepLine chain st l = st := by
  unfold stepLine
  rw [hc]

theorem stepLine_corr (chain : List Dialect) (st : QState) (l : String)
    (hc : classify (pyStrip l.data) = LineClass.correlation) :
    stepLine chain st l =
      (if st.ms.isEmpty then st
       else
        match corrValue (pyStrip l.data) with
        | none => st
        | some v => QState.mk st.header st.chars (setLastGuid st.ms v) st.eventId) := by
  unfold stepLine
  rw [hc]

theorem stepLine_field (chain : List Dialect) (st : QState) (l : String)
    (hc : classify (pyStrip l.data) = LineClass.field) :
    stepLine chain st l =
      QState.mk (parseKField (pyStrip l.data) st.header st.chars).1
        (parseKField (pyStrip l.data) st.header st.chars).2 st.ms st.eventId := by
  unfold stepLine
  rw [hc]

theorem stepLine_cand (chain : List Dialect) (st : QState) (l : String)
    (hc : classify (pyStrip l.data) = LineClass.candidate) :
    stepLine chain st l =
      (match tryChain chain (String.mk (pyStrip l.data)) st.chars st.eventId with
       | some r => QState.mk st.header st.chars (st.ms ++ r) (st.eventId + 1)
       | none => st) := by
  unfold stepLine
  rw [hc]

theorem producedRecords_eq (chain : List Dialect) (st : QState) (l : String) :
    producedRecords chain st l
      = (decide (classify (pyStrip l.data) = LineClass.candidate) &&
         (tryChain chain (String.mk (pyStrip l.data)) st.chars st.eventId).isSome) := by
  rfl

/-- C3: the event counter is incremented exactly once per line that produced
one or more measurement records (and records are appended exactly then); a
correlation line never touches the counter: it writes its value into the
GUID of the most recently appended record, and is dropped with no effect at
all when no record exists yet. -/
theorem c3_event_counter (st : QState) (l : String) :
    ((stepLine PARSER_CHAIN st l).eventId
        = st.eventId + (if producedRecords PARSER_CHAIN st l then 1 else 0))
    ∧ (producedRecords PARSER_CHAIN st l = true
        ↔ st.ms.length < (stepLine PARSER_CHAIN st l).ms.length)
    ∧ (classify (pyStrip l.data) = LineClass.correlation →
        (stepLine PARSER_CHAIN st l).eventId = st.eventId
        ∧ (st.ms = [] → stepLine PARSER_CHAIN st l = st)
        ∧ (∀ v, corrValue (pyStrip l.data) = some v → st.ms ≠ [] →
            stepLine PARSER_CHAIN st l
              = QState.mk st.header st.chars (setLastGuid st.ms v) st.eventId)) := by
  cases hc : classify (pyStrip l.data) with
  | blank =>
    rw [stepLine_blank PARSER_CHAIN st l hc, producedRecords_eq, hc]
    simp
  | correlation =>
    have hE := stepLine_corr PARSER_CHAIN st l hc
    have hprod : producedRecords PARSER_CHAIN st l = false := by
      rw [producedRecords_eq, hc]
      simp
    have hid : (stepLine PARSER_CHAIN st l).eventId = st.eventId := by
      rw [hE]
      by_cases hms : st.ms.isEmpty = true
      · simp [hms]
      · rw [if_neg hms]
        cases hv : corrValue (pyStrip l.data) <;> simp [hv]
    have hlen : (stepLine PARSER_CHAIN st l).ms.length = st.ms.length := by
      rw [hE]
      by_cases hms : st.ms.isEmpty = true
      · simp [hms]
      · rw [if_neg hms]
        cases hv : corrValue (pyStrip l.data) <;> simp [hv, setLastGuid_length]
    refine ⟨by rw [hprod, hid]; simp, ?_, fun _ => ⟨hid, ?_, ?_⟩⟩
    · rw [hprod, hlen]
      simp
    · intro hnil
      rw [hE]
      simp [hnil]
    · intro v hv hne
      have hms : ¬ (st.ms.isEmpty = true) := by
        simpa [List.isEmpty_iff] using hne
      rw [hE, if_neg hms, hv]
  | field =>
    rw [stepLine_field PARSER_CHAIN st l hc, producedRecords_eq, hc]
    simp
  | candidate =>
    rw [stepLine_cand PARSER_CHAIN st l hc, producedRecords_eq, hc]
    cases ht : tryChain PARSER_CHAIN (String.mk (pyStrip l.data)) st.chars st.eventId with
    | none => simp
    | some r =>
      have hne := tryChain_some_ne_nil _ _ _ _ _ ht
      have hlen : 0 < r.length := List.length_pos.mpr hne
      refine ⟨by simp, ?_, by intro h; exact absurd h (by simp)⟩
      constructor
      · intro _
        simp [List.length_append]
        omega
      · intro _
        simp

/-- A one-group measurement line used by the C3 witness. -/
def c3mline : String := "1 0 05.07.2006/10:48:07"

def c3rec : Rec := Rec.mk 1 1 (PyF.mk 1 0 0) 0 TS.invalid "M" none

def c3stA : QState := initQState

def c3stB : QState := QState.mk [] [] [c3rec] 2

theorem c3_event_counter_witness :
    stepLine PARSER_CHAIN c3stA "K0097/1 ABC-123" = c3stA
    ∧ (stepLine PARSER_CHAIN c3stB "K0097/1 ABC-123").eventId = 2
    ∧ stepLine PARSER_CHAIN c3stB "K0097/1 ABC-123"
        = QState.mk [] [] (setLastGuid [c3rec] "ABC-123") 2
    ∧ (stepLine PARSER_CHAIN c3stB c3mline).eventId = 3 := by
  have hA := (c3_event_counter c3stA "K0097/1 ABC-123").2.2 (by decide)
  have hB := (c3_event_counter c3stB "K0097/1 ABC-123").2.2 (by decide)
  have hM := (c3_event_counter c3stB c3mline).1
  refine ⟨hA.2.1 rfl, hB.1, hB.2.2 "ABC-123" (by decide) (by decide), ?_⟩
  rw [hM]
  decide

/-! ## C6 -/

/-- C6: (a) a dialect that raises while handling a line is equivalent to that
dialect declining — the rest of the chain still runs for that line; (b) a
dialect that always raises can be removed from the chain without changing the
parse of any file, so no line aborts the file; (c) an empty input is reported
as the no-usable-data result (None), not an error; (d) whenever a full parse
yields zero measurement records the caller receives the no-usable-data
result, never an exception. -/
theorem c6_never_raises (chain : List Dialect) (d : Dialect) (line : String)
    (cs : Chars) (eid : Nat) (lines : List String) (content : String) :
    (isErr (d line cs eid) = true →
      tryChain (d :: chain) line cs eid = tryChain chain line cs eid)
    ∧ ((∀ (l : String) (c : Chars) (e : Nat), isErr (d l c e) = true) →
      parseFileContent (d :: chain) lines = parseFileContent chain lines)
    ∧ parseDfqWith chain "" = none
    ∧ ((parseFileContent chain (splitlinesStr content)).ms = [] →
      parseDfqWith chain content = none) := by
  have herrCase : ∀ (l : String) (c : Chars) (e : Nat), isErr (d l c e) = true →
      tryChain (d :: chain) l c e = tryChain chain l c e := by
    intro l c e he
    rw [tryChain]
    cases hd : d l c e with
    | error msg => rfl
    | ok res => rw [hd] at he; simp [isErr] at he
  refine ⟨herrCase line cs eid, ?_, by rfl, ?_⟩
  · intro herr
    have hstep : stepLine (d :: chain) = stepLine chain := by
      funext st l
      unfold stepLine
      cases hc : classify (pyStrip l.data) with
      | blank => rfl
      | correlation => rfl
      | field => rfl
      | candidate =>
        rw [herrCase (String.mk (pyStrip l.data)) st.chars st.eventId
          (herr (String.mk (pyStrip l.data)) st.chars st.eventId)]
    rw [parseFileContent, parseFileContent, hstep]
  · intro h
    unfold parseDfqWith
    dsimp only
    split
    · rfl
    · simp [h]

def dBoom : Dialect := fun _ _ _ => Except.error "boom"

theorem c6_never_raises_witness :
    tryChain [dBoom] "x" [] 1 = tryChain [] "x" [] 1
    ∧ parseFileContent [dBoom] ["x"] = parseFileContent [] ["x"]
    ∧ parseDfqWith [] "" = none
    ∧ parseDfqWith [] "K0001 a" = none := by
  have h := c6_never_raises [] dBoom "x" [] 1 ["x"] "K0001 a"
  exact ⟨h.1 rfl, h.2.1 (fun _ _ _ => rfl), h.2.2.1, h.2.2.2 (by decide)⟩

/-! ## C8 -/

theorem setLastGuid_get?_lt (v : String) :
    ∀ (ms : List Rec) (i : Nat), i + 1 < ms.length →
      (setLastGuid ms v).get? i = ms.get? i := by
  intro ms
  induction ms with
  | nil => intro i h; simp at h
  | cons r rest ih =>
    intro i h
    cases rest with
    | nil => simp at h
    | cons s rest2 =>
      cases i with
      | zero => rfl
      | succ j =>
        have := ih j (by simpa using h)
        simpa [setLastGuid] using this

theorem stripGuid_setGuid (r : Rec) (v : String) :
    (r.setGuid v).stripGuid = r.stripGuid := rfl

theorem setLastGuid_get?_stripGuid (v : String) :
    ∀ (ms : List Rec) (i : Nat),
      ((setLastGuid ms v).get? i).map Rec.stripGuid = (ms.get? i).map Rec.stripGuid := by
  intro ms
  induction ms with
  | nil => intro i; rfl
  | cons r rest ih =>
    intro i
    cases rest with
    | nil =>
      cases i with
      | zero => simp [setLastGuid, stripGuid_setGuid]
      | succ j => rfl
    | cons s rest2 =>
      cases i with
      | zero => rfl
      | succ j => simpa [setLastGuid] using ih j

/-- C8 (amended): after a record is created, every field other than the GUID
is immutable — any later line leaves every already-present record intact up
to its GUID; records other than the most recent one are fully immutable; and
a line that is not a correlation line leaves even the GUID of every record
untouched.  (The original claim's "set exactly once, never overwritten" part
is refuted by `c8_overwrite_counterexample`.) -/
theorem c8_immutable_except_guid (st : QState) (l : String) :
    (∀ i : Nat, i + 1 < st.ms.length →
      (stepLine PARSER_CHAIN st l).ms.get? i = st.ms.get? i)
    ∧ (∀ i : Nat, i < st.ms.length →
      ((stepLine PARSER_CHAIN st l).ms.get? i).map Rec.stripGuid
        = (st.ms.get? i).map Rec.stripGuid)
    ∧ (classify (pyStrip l.data) ≠ LineClass.correlation →
      ∀ i : Nat, i < st.ms.length →
        (stepLine PARSER_CHAIN st l).ms.get? i = st.ms.get? i) := by
  cases hc : classify (pyStrip l.data) with
  | blank =>
    rw [stepLine_blank PARSER_CHAIN st l hc]
    exact ⟨fun i _ => rfl, fun i _ => rfl, fun _ i _ => rfl⟩
  | correlation =>
    have hE := stepLine_corr PARSER_CHAIN st l hc
    have hms : ∀ i : Nat, i < st.ms.length →
        ((stepLine PARSER_CHAIN st l).ms.get? i).map Rec.stripGuid
          = (st.ms.get? i).map Rec.stripGuid := by
      intro i hi
      rw [hE]
      by_cases hms : st.ms.isEmpty = true
      · simp [hms]
      · rw [if_neg hms]
        cases hv : corrValue (pyStrip l.data) with
        | none => rfl
        | some v => simpa using setLastGuid_get?_stripGuid v st.ms i
    refine ⟨?_, hms, fun hcontra => absurd rfl hcontra⟩
    intro i hi
    rw [hE]
    by_cases hms2 : st.ms.isEmpty = true
    · simp [hms2]
    · rw [if_neg hms2]
      cases hv : corrValue (pyStrip l.data) with
      | none => rfl
      | some v => simpa using setLastGuid_get?_lt v st.ms i hi
  | field =>
    rw [stepLine_field PARSER_CHAIN st l hc]
    exact ⟨fun i _ => rfl, fun i _ => rfl, fun _ i _ => rfl⟩
  | candidate =>
    have hE := stepLine_cand PARSER_CHAIN st l hc
    have hpres : ∀ i : Nat, i < st.ms.length →
        (stepLine PARSER_CHAIN st l).ms.get? i = st.ms.get? i := by
      intro i hi
      rw [hE]
      cases ht : tryChain PARSER_CHAIN (String.mk (pyStrip l.data)) st.chars st.eventId with
      | none => rfl
      | some r => simpa using List.get?_append hi
    exact ⟨fun i hi => hpres i (by omega), fun i hi => by rw [hpres i hi],
      fun _ i hi => hpres i hi⟩

/-- C8 (counterexample): a measurement line followed by two correlation lines
in a row — the first correlation line sets the GUID of the single record to
"AAA", the second overwrites it to "BBB": the correlationId is not written
exactly once and is overwritten by a later correlation line. -/
theorem c8_overwrite_counterexample :
    (parseFileContent PARSER_CHAIN
        ["57.962 0 05.07.2006/10:48:07", "K0097/1 AAA"]).ms.map Rec.guid = [some "AAA"]
    ∧ (parseFileContent PARSER_CHAIN
        ["57.962 0 05.07.2006/10:48:07", "K0097/1 AAA", "K0097/1 BBB"]).ms.map Rec.guid
        = [some "BBB"]
    ∧ some "BBB" ≠ (some "AAA" : Option String) := by
  exact ⟨by decide, by decide, by decide⟩

def c8st : QState :=
  QState.mk [] [] [Rec.mk 1 1 (PyF.mk 1 0 0) 0 TS.invalid "M" none,
    Rec.mk 1 2 (PyF.mk 2 0 0) 0 TS.invalid "N" none] 2

theorem c8_immutable_except_guid_witness :
    (stepLine PARSER_CHAIN c8st "K0097/1 X").ms.get? 0 = c8st.ms.get? 0
    ∧ ((stepLine PARSER_CHAIN c8st "K0097/1 X").ms.get? 1).map Rec.stripGuid
        = (c8st.ms.get? 1).map Rec.stripGuid
    ∧ (stepLine PARSER_CHAIN c8st "99").ms.get? 1 = c8st.ms.get? 1 := by
  have h1 := c8_immutable_except_guid c8st "K0097/1 X"
  have h2 := c8_immutable_except_guid c8st "99"
  exact ⟨h1.1 0 (by decide), h1.2.1 1 (by decide), h2.2.2 (by decide) 1 (by decide)⟩

/-! ## C9 -/

/-- The classifier pattern the code actually applies: the letter K followed
by four decimal digits (with anything allowed afterwards). -/
def codeK4 (s : List Char) : Bool :=
  match s with
  | c :: a :: b :: d :: e :: _ =>
    c = 'K' && a.isDigit && b.isDigit && d.isDigit && e.isDigit
  | _ => false

theorem kFieldMatch_eq_codeK4 : ∀ s : List Char, kFieldMatch s = codeK4 s := by
  intro s
  match s with
  | [] => rfl
  | [a] => simp [kFieldMatch, codeK4, List.take]
  | [a, b] => simp [kFieldMatch, codeK4, List.take]
  | [a, b, c] => simp [kFieldMatch, codeK4, List.take]
  | [a, b, c, d] => simp [kFieldMatch, codeK4, List.take]
  | a :: b :: c :: d :: e :: rest =>
    by_cases ha : a = 'K'
    · subst ha
      simp [kFieldMatch, codeK4, List.take, List.isPrefixOf]
    · have hA : (['K'].isPrefixOf (a :: b :: c :: d :: e :: rest)) = false := by
        simp [List.isPrefixOf]
        intro h
        exact ha h.symm
      simp [kFieldMatch, codeK4, hA, ha]

/-- C9 (amended): routing of a non-blank line (after stripping): it is a
correlation line iff it starts with "K0097/"; otherwise it is a field line
iff it starts with the letter 'K' (not an arbitrary letter) followed by four
decimal digits, with no constraint on what follows; blank lines leave the
whole parse state untouched.  (The "any letter" reading of the original
claim is refuted by `c9_classifier_counterexample`.) -/
theorem c9_classifier (st : QState) (l : String) :
    (classify (pyStrip l.data) = LineClass.correlation
      ↔ "K0097/".data.isPrefixOf (pyStrip l.data) = true)
    ∧ (classify (pyStrip l.data) = LineClass.field
      ↔ ("K0097/".data.isPrefixOf (pyStrip l.data) = false
         ∧ codeK4 (pyStrip l.data) = true))
    ∧ (pyStrip l.data = [] → stepLine PARSER_CHAIN st l = st) := by
  refine ⟨?_, ?_, ?_⟩
  · constructor
    · intro h
      unfold classify at h
      split at h
      · exact absurd h (by simp)
      · split at h
        · assumption
        · split at h <;> exact absurd h (by simp)
    · intro h
      have hne : (pyStrip l.data).isEmpty = false := by
        cases hs : pyStrip l.data with
        | nil => rw [hs] at h; simp [List.isPrefixOf] at h
        | cons a b => rfl
      unfold classify
      rw [hne, h]
      rfl
  · constructor
    · intro h
      unfold classify at h
      split at h
      · exact absurd h (by simp)
      · split at h
        · exact absurd h (by simp)
        · split at h
          · rename_i hpre hmatch
            refine ⟨Bool.eq_false_iff.mpr hpre, ?_⟩
            rw [← kFieldMatch_eq_codeK4]
            assumption
          · exact absurd h (by simp)
    · intro h
      have hne : (pyStrip l.data).isEmpty = false := by
        cases hs : pyStrip l.data with
        | nil => rw [hs] at h; exact absurd h.2 (by simp [codeK4])
        | cons a b => rfl
      unfold classify
      rw [hne]
      simp only [h.1, kFieldMatch_eq_codeK4, h.2]
      rfl
  · intro h
    apply stepLine_blank
    unfold classify
    rw [h]
    rfl

/-- C9 (counterexample): the line "A1234 7" begins with one letter followed
by exactly four digits, so the claim classifies it as a field line; the code
classifies it as a measurement candidate because the letter is not 'K'. -/
theorem c9_classifier_counterexample :
    specClaimFieldPattern "A1234 7" = true
    ∧ classify (pyStrip (String.data "A1234 7")) = LineClass.candidate
    ∧ LineClass.candidate ≠ LineClass.field := by
  exact ⟨by decide, by decide, by decide⟩

theorem c9_classifier_witness :
    (classify (pyStrip (String.data "K0097/1 G")) = LineClass.correlation
      ↔ "K0097/".data.isPrefixOf (pyStrip (String.data "K0097/1 G")) = true)
    ∧ stepLine PARSER_CHAIN initQState "  " = initQState := by
  have h1 := c9_classifier initQState "K0097/1 G"
  have h2 := c9_classifier initQState "  "
  exact ⟨h1.1, h2.2.2 (by decide)⟩

/-! ## C7 -/

theorem kmapLookup_kmapInsert_self :
    ∀ (m : KMap) (k v : String), kmapLookup (kmapInsert m k v) k = some v := by
  intro m k v
  induction m with
  | nil => simp [kmapInsert, kmapLookup]
  | cons p ps ih =>
    by_cases hp : p.1 = k
    · simp [kmapInsert, kmapLookup, hp]
    · simp [kmapInsert, kmapLookup, hp, ih]

theorem charsLookup_charsInsert_self :
    ∀ (cs : Chars) (i : Nat) (m : KMap), charsLookup (charsInsert cs i m) i = some m := by
  intro cs i m
  induction cs with
  | nil => simp [charsInsert, charsLookup]
  | cons p ps ih =>
    by_cases hp : p.1 = i
    · simp [charsInsert, charsLookup, hp]
    · simp [charsInsert, charsLookup, hp, ih]

theorem charsLookup_charsInsert_ne :
    ∀ (cs : Chars) (i j : Nat) (m : KMap), j ≠ i →
      charsLookup (charsInsert cs i m) j = charsLookup cs j := by
  intro cs i j m hne
  have hij : ¬ (i = j) := fun h => hne h.symm
  induction cs with
  | nil =>
    rw [charsInsert, charsLookup, charsLookup, if_neg hij]
    rfl
  | cons p ps ih =>
    by_cases hp : p.1 = i
    · rw [charsInsert, if_pos hp, charsLookup, charsLookup, hp, if_neg hij, if_neg hij]
    · rw [charsInsert, if_neg hp, charsLookup, charsLookup, ih]

theorem charsGetFieldOpt_charsSetField_self (cs : Chars) (i : Nat) (code v : String) :
    charsGetFieldOpt (charsSetField cs i code v) i code = some v := by
  unfold charsSetField charsGetFieldOpt
  cases hl : charsLookup cs i with
  | none =>
    rw [charsLookup_charsInsert_self]
    simp [kmapLookup]
  | some m =>
    rw [charsLookup_charsInsert_self]
    simp [kmapLookup_kmapInsert_self]

theorem charsGetFieldOpt_charsSetField_ne (cs : Chars) (i j : Nat) (code c v : String)
    (hne : j ≠ i) :
    charsGetFieldOpt (charsSetField cs i code v) j c = charsGetFieldOpt cs j c := by
  unfold charsSetField charsGetFieldOpt
  cases hl : charsLookup cs i with
  | none => rw [charsLookup_charsInsert_ne _ _ _ _ hne]
  | some m => rw [charsLookup_charsInsert_ne _ _ _ _ hne]

theorem fanPieces_preserve_lt (base : String) (c : String) :
    ∀ (ps : List (List Char)) (start : Nat) (cs : Chars) (j : Nat), j < start →
      charsGetFieldOpt (fanPieces base start ps cs) j c = charsGetFieldOpt cs j c := by
  intro ps
  induction ps with
  | nil => intro start cs j hj; rfl
  | cons p ps ih =>
    intro start cs j hj
    rw [fanPieces, ih (start + 1) _ j (by omega)]
    by_cases hb : (pyStrip p).isEmpty
    · rw [if_pos hb]
    · rw [if_neg hb, charsGetFieldOpt_charsSetField_ne _ _ _ _ _ _ (by omega)]

theorem fanPieces_get (base : String) :
    ∀ (ps : List (List Char)) (start : Nat) (cs : Chars) (i : Nat) (hi : i < ps.length),
      (pyStrip (ps.get ⟨i, hi⟩)).isEmpty = false →
      charsGetFieldOpt (fanPieces base start ps cs) (start + i) base
        = some (String.mk (pyStrip (ps.get ⟨i, hi⟩))) := by
  intro ps
  induction ps with
  | nil => intro start cs i hi; simp at hi
  | cons p ps ih =>
    intro start cs i hi hnb
    cases i with
    | zero =>
      rw [fanPieces]
      have hp : (pyStrip p).isEmpty = false := hnb
      rw [if_neg (by simp [hp])]
      simp only [Nat.add_zero]
      rw [fanPieces_preserve_lt base base ps (start + 1) _ start (by omega)]
      exact charsGetFieldOpt_charsSetField_self _ _ _ _
    | succ j =>
      rw [fanPieces]
      have : start + (j + 1) = (start + 1) + j := by omega
      rw [this]
      exact ih (start + 1) _ j (by simpa using hi) hnb

theorem splitAtFirst_append (sep : Char) :
    ∀ (pre rest : List Char), pre.all (fun c => decide (c ≠ sep)) = true →
      splitAtFirst sep (pre ++ sep :: rest) = some (pre, rest) := by
  intro pre
  induction pre with
  | nil => intro rest _; simp [splitAtFirst]
  | cons c pre ih =>
    intro rest hall
    rw [List.all_cons, Bool.and_eq_true] at hall
    have hc : ¬ (c = sep) := by simpa using hall.1
    rw [List.cons_append, splitAtFirst, if_neg hc, ih rest hall.2]

/-- C7 (amended): the multi-value ¤ fan-out is performed by the historical
header parser (app.py parse_header): for a characteristic field line whose
code is `base/index` (base in the K2xxx family, positive index) and whose
value packs pieces with '¤', piece i (1-based, stripped) is stored under
characteristic index i for every nonblank piece.  The stable field parser
(qdas_parser._parse_k_field) performs no fan-out: it stores the packed value
verbatim under the line's own index (see `c7_no_fanout_counterexample`). -/
theorem c7_fanout (st : KMap × Chars) (header : KMap) (chars : Chars)
    (base idxPart value rest : List Char) :
    (base.all (fun c => decide (c ≠ '/')) = true →
     ['K', '2'].isPrefixOf base = true →
     isDigits idxPart = true →
     0 < natOfDigits idxPart →
     hasCurrency value = true →
     ∀ (i : Nat) (hi : i < (splitAll '¤' value).length),
       (pyStrip ((splitAll '¤' value).get ⟨i, hi⟩)).isEmpty = false →
       charsGetFieldOpt (appHeaderField (base ++ '/' :: idxPart) value st).2
           (i + 1) (String.mk base)
         = some (String.mk (pyStrip ((splitAll '¤' value).get ⟨i, hi⟩))))
    ∧ ((base ++ '/' :: idxPart).all (fun c => decide (c ≠ ' ')) = true →
       base.all (fun c => decide (c ≠ '/')) = true →
       ['K', '2'].isPrefixOf base = true →
       isDigits idxPart = true →
       (parseKField (base ++ '/' :: idxPart ++ ' ' :: rest) header chars).2
         = charsSetField chars (natOfDigits idxPart) (String.mk base)
             (String.mk (pyStrip rest))) := by
  constructor
  · intro hslash hpre hdig hpos hcur i hi hnb
    unfold appHeaderField
    rw [splitAtFirst_append '/' base idxPart hslash]
    dsimp only
    rw [if_pos hdig, if_pos (by simp [hpre, hpos]), if_pos hcur]
    dsimp only
    have := fanPieces_get (String.mk base) (splitAll '¤' value) 1
      (match charsLookup st.2 (natOfDigits idxPart) with
       | none => charsInsert st.2 (natOfDigits idxPart) []
       | some _ => st.2) i hi hnb
    rw [Nat.add_comm 1 i] at this
    exact this
  · intro hspace hslash hpre hdig
    unfold parseKField
    have h1 : splitAtFirst ' ' (base ++ '/' :: idxPart ++ ' ' :: rest)
        = some (base ++ '/' :: idxPart, rest) := by
      have := splitAtFirst_append ' ' (base ++ '/' :: idxPart) rest hspace
      simpa using this
    rw [h1]
    dsimp only
    rw [splitAtFirst_append '/' base idxPart hslash]
    dsimp only
    rw [if_pos (by simp [hpre, hdig])]

/-- C7 (counterexample): the stable field parser on the packed field line
"K2001/2 A¤B" stores the whole value "A¤B" under index 2 and creates no
characteristic 1; the claim requires piece "A" at index 1 and piece "B" at
index 2. -/
theorem c7_no_fanout_counterexample :
    parseKField (String.data "K2001/2 A¤B") [] []
      = ([("K2001/2", "A¤B")], [(2, [("K2001", "A¤B")])])
    ∧ charsGetFieldOpt [(2, [("K2001", "A¤B")])] 1 "K2001" = none
    ∧ charsGetFieldOpt [(2, [("K2001", "A¤B")])] 2 "K2001" = some "A¤B"
    ∧ (some "A¤B" : Option String) ≠ some "A" := by
  exact ⟨by decide, by decide, by decide, by decide⟩

theorem c7_fanout_witness :
    charsGetFieldOpt
        (appHeaderField (String.data "K2001/2") (String.data "A¤B") ([], [])).2 1 "K2001"
      = some "A"
    ∧ charsGetFieldOpt
        (appHeaderField (String.data "K2001/2") (String.data "A¤B") ([], [])).2 2 "K2001"
      = some "B"
    ∧ (parseKField (String.data "K2001/2 A¤B") [] []).2
      = charsSetField [] 2 "K2001" "A¤B" := by
  have h := c7_fanout ([], []) [] [] (String.data "K2001") (String.data "2")
    (String.data "A¤B") (String.data "A¤B")
  have h1 := h.1 (by decide) (by decide) (by decide) (by decide) (by decide)
    0 (by decide) (by decide)
  have h2 := h.1 (by decide) (by decide) (by decide) (by decide) (by decide)
    1 (by decide) (by decide)
  have h3 := h.2 (by decide) (by decide) (by decide) (by decide)
  exact ⟨h1, h2, h3⟩

/-! ## C4 -/

theorem insertLe_mem {α : Type} (le : α → α → Bool) (x : α) :
    ∀ (l : List α) (z : α), z ∈ insertLe le x l → z = x ∨ z ∈ l := by
  intro l
  induction l with
  | nil =>
    intro z hz
    rw [insertLe] at hz
    exact Or.inl (by simpa using hz)
  | cons y ys ih =>
    intro z hz
    rw [insertLe] at hz
    by_cases h : le x y = true
    · rw [if_pos h] at hz
      simp only [List.mem_cons] at hz ⊢
      tauto
    · rw [if_neg h] at hz
      simp only [List.mem_cons] at hz ⊢
      rcases hz with rfl | hz2
      · tauto
      · rcases ih z hz2 with rfl | hz3 <;> tauto

theorem insertLe_perm {α : Type} (le : α → α → Bool) (x : α) :
    ∀ l : List α, List.Perm (insertLe le x l) (x :: l) := by
  intro l
  induction l with
  | nil => exact List.Perm.refl _
  | cons y ys ih =>
    rw [insertLe]
    by_cases h : le x y = true
    · rw [if_pos h]
    · rw [if_neg h]
      exact List.Perm.trans (ih.cons y) (List.Perm.swap x y ys)

theorem insertLe_pairwise {α : Type} (le : α → α → Bool)
    (htot : ∀ a b, le a b = true ∨ le b a = true)
    (htr : ∀ a b c, le a b = true → le b c = true → le a c = true) :
    ∀ (x : α) (l : List α), List.Pairwise (fun a b => le a b = true) l →
      List.Pairwise (fun a b => le a b = true) (insertLe le x l) := by
  intro x l
  induction l with
  | nil => intro _; simp [insertLe]
  | cons y ys ih =>
    intro h
    obtain ⟨hy, hys⟩ := List.pairwise_cons.mp h
    rw [insertLe]
    by_cases hxy : le x y = true
    · rw [if_pos hxy]
      refine List.Pairwise.cons ?_ h
      intro z hz
      rcases List.mem_cons.mp hz with rfl | hz2
      · exact hxy
      · exact htr x y z hxy (hy z hz2)
    · rw [if_neg hxy]
      refine List.Pairwise.cons ?_ (ih hys)
      intro z hz
      rcases insertLe_mem le x ys z hz with hzx | hz2
      · rw [hzx]
        rcases htot x y with hx | hx
        · exact absurd hx hxy
        · exact hx
      · exact hy z hz2

theorem insSortBy_perm {α : Type} (le : α → α → Bool) :
    ∀ l : List α, List.Perm (insSortBy le l) l := by
  intro l
  induction l with
  | nil => exact List.Perm.refl _
  | cons x xs ih =>
    rw [insSortBy]
    exact List.Perm.trans (insertLe_perm le x (insSortBy le xs)) (ih.cons x)

theorem insSortBy_pairwise {α : Type} (le : α → α → Bool)
    (htot : ∀ a b, le a b = true ∨ le b a = true)
    (htr : ∀ a b c, le a b = true → le b c = true → le a c = true) :
    ∀ l : List α, List.Pairwise (fun a b => le a b = true) (insSortBy le l) := by
  intro l
  induction l with
  | nil => simp [insSortBy]
  | cons x xs ih =>
    rw [insSortBy]
    exact insertLe_pairwise le htot htr x (insSortBy le xs) ih

theorem dedupAux_spec {α : Type} [DecidableEq α] :
    ∀ (l seen : List α), (∀ z ∈ dedupAux seen l, z ∉ seen) ∧ (dedupAux seen l).Nodup := by
  intro l
  induction l with
  | nil => intro seen; exact ⟨by simp [dedupAux], by simp [dedupAux]⟩
  | cons x xs ih =>
    intro seen
    rw [dedupAux]
    by_cases hx : x ∈ seen
    · rw [if_pos hx]
      exact ih seen
    · rw [if_neg hx]
      obtain ⟨h1, h2⟩ := ih (x :: seen)
      refine ⟨?_, ?_⟩
      · intro z hz
        rcases List.mem_cons.mp hz with rfl | hz2
        · exact hx
        · intro hzs
          exact (h1 z hz2) (List.mem_cons_of_mem x hzs)
      · refine List.nodup_cons.mpr ⟨?_, h2⟩
        intro hxin
        exact (h1 x hxin) (List.mem_cons_self x seen)

theorem dedupKeep_nodup {α : Type} [DecidableEq α] (l : List α) : (dedupKeep l).Nodup :=
  (dedupAux_spec l []).2

theorem rowKeyLe_total : ∀ a b : Nat × TS, rowKeyLe a b = true ∨ rowKeyLe b a = true := by
  intro a b
  unfold rowKeyLe
  simp only [Bool.or_eq_true, Bool.and_eq_true, decide_eq_true_eq, beq_iff_eq]
  omega

theorem rowKeyLe_trans : ∀ a b c : Nat × TS,
    rowKeyLe a b = true → rowKeyLe b c = true → rowKeyLe a c = true := by
  intro a b c hab hbc
  unfold rowKeyLe at hab hbc ⊢
  simp only [Bool.or_eq_true, Bool.and_eq_true, decide_eq_true_eq, beq_iff_eq] at hab hbc ⊢
  omega

theorem rowKeyLe_fst : ∀ a b : Nat × TS, rowKeyLe a b = true → a.1 ≤ b.1 := by
  intro a b h
  unfold rowKeyLe at h
  simp only [Bool.or_eq_true, Bool.and_eq_true, decide_eq_true_eq, beq_iff_eq] at h
  omega

/-- C4 (amended): the projection decision and shape of
excel_writer.create_excel_file — the result is wide iff some event carries
at least two distinct characteristic labels; the wide table has exactly one
row per distinct (event id, timestamp) pair among the records whose
timestamp is not the invalid marker (groupby drops NaT keys, so a
multi-channel line with per-channel timestamps yields several rows for one
event id), rows are ordered ascending by event id, and every cell holds the
pandas-default mean of the group's values (not the first value — see
`c4_mean_counterexample`); otherwise the result stays in long form, a
permutation of the records sorted ascending by event id. -/
theorem c4_projection (ms : List Rec) :
    (createExcelDisplay ms = Display.wide (wideRows ms) ↔ multiFeature ms = true)
    ∧ (multiFeature ms = false →
        createExcelDisplay ms
          = Display.long (insSortBy (fun a b => decide (a.eventId ≤ b.eventId)) ms)
        ∧ List.Perm (insSortBy (fun a b => decide (a.eventId ≤ b.eventId)) ms) ms
        ∧ List.Pairwise (fun a b : Rec => a.eventId ≤ b.eventId)
            (insSortBy (fun a b => decide (a.eventId ≤ b.eventId)) ms))
    ∧ (wideRows ms).map (fun r => (r.eventId, r.zeit)) = pivotKeys ms
    ∧ (pivotKeys ms).Nodup
    ∧ List.Pairwise (fun a b : WideRow => a.eventId ≤ b.eventId) (wideRows ms)
    ∧ (∀ r, r ∈ wideRows ms →
        r.cells = (pivotCols ms).map (fun m => (m, cellVal ms r.eventId r.zeit m))) := by
  have hkeys : List.Pairwise (fun a b => rowKeyLe a b = true) (pivotKeys ms) :=
    insSortBy_pairwise rowKeyLe rowKeyLe_total rowKeyLe_trans _
  refine ⟨?_, ?_, ?_, ?_, ?_, ?_⟩
  · constructor
    · intro h
      by_cases hm : multiFeature ms = true
      · exact hm
      · rw [createExcelDisplay, if_neg hm] at h
        exact absurd h (by simp)
    · intro h
      rw [createExcelDisplay, if_pos h]
  · intro h
    have hle : ∀ a b : Rec, (decide (a.eventId ≤ b.eventId)) = true
        ∨ (decide (b.eventId ≤ a.eventId)) = true := by
      intro a b
      simp only [decide_eq_true_eq]
      omega
    have htr : ∀ a b c : Rec, (decide (a.eventId ≤ b.eventId)) = true
        → (decide (b.eventId ≤ c.eventId)) = true
        → (decide (a.eventId ≤ c.eventId)) = true := by
      intro a b c h1 h2
      simp only [decide_eq_true_eq] at h1 h2 ⊢
      omega
    refine ⟨by rw [createExcelDisplay, if_neg (by simp [h])], insSortBy_perm _ ms, ?_⟩
    have := insSortBy_pairwise _ hle htr ms
    exact this.imp (fun hab => by simpa using hab)
  · rw [wideRows, List.map_map]
    have hcomp : ((fun r : WideRow => (r.eventId, r.zeit)) ∘ fun k : Nat × TS =>
        WideRow.mk k.1 k.2 ((pivotCols ms).map (fun m => (m, cellVal ms k.1 k.2 m))))
        = fun k => k := by
      funext k
      rfl
    rw [hcomp]
    exact List.map_id _
  · exact (insSortBy_perm rowKeyLe _).nodup_iff.mpr (dedupKeep_nodup _)
  · rw [wideRows]
    rw [List.pairwise_map]
    exact hkeys.imp (fun hab => rowKeyLe_fst _ _ hab)
  · intro r hr
    rw [wideRows] at hr
    obtain ⟨k, hk, hkr⟩ := List.mem_map.mp hr
    subst hkr
    rfl

def c4ts1 : TS := TS.valid (Date.mk 2020 1 1 10 0 0)

def c4ts2 : TS := TS.valid (Date.mk 2020 1 1 11 0 0)

/-- Records of one event (id 1) with two characteristics A and B, two values
for the (event 1, A, first timestamp) cell and a second timestamp for B. -/
def c4recs : List Rec :=
  [Rec.mk 1 1 (PyF.mk 1 0 0) 0 c4ts1 "A" none,
   Rec.mk 1 1 (PyF.mk 3 0 0) 0 c4ts1 "A" none,
   Rec.mk 1 2 (PyF.mk 5 0 0) 0 c4ts1 "B" none,
   Rec.mk 1 2 (PyF.mk 6 0 0) 0 c4ts2 "B" none]

/-- C4 (counterexample): on `c4recs` the projection goes wide, but (a) event 1
produces two rows (one per distinct timestamp), not one row per event id, and
(b) the (event 1, "A") cell holds the mean 2 of the two values 1 and 3 —
pivot_table is called without aggfunc, so pandas' default mean applies — not
the first value 1 the claim requires. -/
theorem c4_mean_counterexample :
    multiFeature c4recs = true
    ∧ (pivotKeys c4recs).map Prod.fst = [1, 1]
    ∧ cellVal c4recs 1 c4ts1 "A" = some 2
    ∧ specFirstValue c4recs 1 "A" = some 1
    ∧ (some (2 : ℚ) ≠ some (1 : ℚ)) := by
  refine ⟨by decide, by decide, ?_, ?_, by norm_num⟩
  · have hf : ((pivotValidMs c4recs).filter
        (fun r => r.eventId == 1 && r.zeit == c4ts1 && r.merkmal == "A"))
        = [Rec.mk 1 1 (PyF.mk 1 0 0) 0 c4ts1 "A" none,
           Rec.mk 1 1 (PyF.mk 3 0 0) 0 c4ts1 "A" none] := by decide
    unfold cellVal
    rw [hf]
    simp only [List.map_cons, List.map_nil, meanOf]
    norm_num [PyF.toRat]
  · have hf : (c4recs.filter (fun r => r.eventId == 1 && r.merkmal == "A"))
        = [Rec.mk 1 1 (PyF.mk 1 0 0) 0 c4ts1 "A" none,
           Rec.mk 1 1 (PyF.mk 3 0 0) 0 c4ts1 "A" none] := by decide
    unfold specFirstValue
    rw [hf]
    simp only [List.map_cons, List.head?]
    norm_num [PyF.toRat]

/-- Two events with one characteristic each: stays long-form. -/
def c4long : List Rec :=
  [Rec.mk 2 1 (PyF.mk 3 0 0) 0 c4ts1 "A" none,
   Rec.mk 1 1 (PyF.mk 1 0 0) 0 c4ts1 "A" none]

theorem c4_projection_witness :
    createExcelDisplay c4recs = Display.wide (wideRows c4recs)
    ∧ (pivotKeys c4recs).Nodup
    ∧ createExcelDisplay c4long
        = Display.long (insSortBy (fun a b => decide (a.eventId ≤ b.eventId)) c4long) := by
  have h1 := c4_projection c4recs
  have h2 := c4_projection c4long
  exact ⟨h1.1.mpr (by decide), h1.2.2.2.1, (h2.2.1 (by decide)).1⟩

end DFQ
